import Mathlib

/-!
Verification of the enrichment-pipeline core of this repository
(scripts/import_new_questions_csv.py and scripts/migrate.py).

The embedding is shallow: the pure content of each Python function is
translated to an executable Lean definition over lists, and the
stateful pipeline is modelled by explicit state passing; the
enrichment oracle (an external HTTP service) is a parameter of type
`Oracle`.  Names follow the source where Lean allows it.
-/

namespace Pipeline

/-! ### Characters and strings

Python string primitives used by the two scripts, modelled on
`List Char`.  `pyLower` is Python's `str.lower` restricted to the
alphabet actually occurring in this repository's category labels
(ASCII letters plus the Swedish letters Ö, Ä, Å). -/

def pyLower (c : Char) : Char :=
  if c = 'Ö' then 'ö'
  else if c = 'Ä' then 'ä'
  else if c = 'Å' then 'å'
  else if 65 ≤ c.toNat ∧ c.toNat ≤ 90 then Char.ofNat (c.toNat + 32)
  else c

/-- Python `s.replace(a, b)` for one-character `a`, `b`: replace every
occurrence. -/
def replChar (a b : Char) (s : List Char) : List Char :=
  s.map fun c => if c = a then b else c

/-- `n` is an initial segment of `h`. -/
def isPrefOf : List Char → List Char → Bool
  | [], _ => true
  | _ :: _, [] => false
  | a :: as, b :: bs => (a == b) && isPrefOf as bs

/-- Python's substring test `needle in hay`. -/
def substrIn (needle : List Char) : List Char → Bool
  | [] => isPrefOf needle []
  | h :: t => isPrefOf needle (h :: t) || substrIn needle t

/-! ### The category table and the two routing functions -/

/-- `CATEGORY_FILES`: the category → filename table, identical in
import_new_questions_csv.py and migrate.py.  Modelled as an
association list in insertion order (Python dicts iterate in insertion
order, which the substring tier of both routers depends on). -/
def CATEGORY_FILES : List (String × String) :=
  [("neurologi", "neurologi.yaml"),
   ("internmedicin", "internmedicin.yaml"),
   ("allmanmedicin", "allmanmedicin.yaml"),
   ("psykiatri", "psykiatri.yaml"),
   ("ortopedi", "ortopedi.yaml"),
   ("kirurgi", "kirurgi.yaml"),
   ("akutmedicin", "akutmedicin.yaml"),
   ("diabetologi", "diabetologi.yaml"),
   ("endokrinologi", "endokrinologi.yaml"),
   ("gastroenterologi", "gastroenterologi.yaml"),
   ("hepatologi", "hepatologi.yaml"),
   ("hematologi", "hematologi.yaml"),
   ("kardiologi", "kardiologi.yaml"),
   ("lungmedicin", "lungmedicin.yaml"),
   ("njurmedicin", "njurmedicin.yaml"),
   ("klinisk farmakologi", "klinisk_farmakologi.yaml"),
   ("oron-nasa-hals", "oron_nasa_hals.yaml"),
   ("oron-nasa-hals-sjukdomar", "oron_nasa_hals.yaml")]

/-- The destination filenames of the table. -/
def DEST_VALUES : List String := CATEGORY_FILES.map (·.2)

/-- `get_dest_file` of import_new_questions_csv.py: exact lookup of the
lower-cased label in `CATEGORY_FILES`, then the first table key that is
a substring of the normalized label (lower-case, ö→o, ä→a, å→a,
space→underscore, hyphen→underscore), then the fallback file
"blandat.yaml". -/
def get_dest_file (category : String) : String :=
  let lowered := category.data.map pyLower
  let normalized :=
    replChar '-' '_' (replChar ' ' '_'
      (replChar 'å' 'a' (replChar 'ä' 'a' (replChar 'ö' 'o' lowered))))
  match CATEGORY_FILES.find? (fun kv => kv.1.data == lowered) with
  | some kv => kv.2
  | none =>
    match CATEGORY_FILES.find? (fun kv => substrIn kv.1.data normalized) with
    | some kv => kv.2
    | none => "blandat.yaml"

/-- The category → filename selection inside migrate.py's
`process_question` (lines 131–143): normalization of the label
(lower-case, ö→o, ä→a, å→a, space→underscore — no hyphen replacement),
then the first table key that is a substring of the normalized label
(there is no exact tier), then the fallback file "internmedicin.yaml". -/
def migrate_route (category : String) : String :=
  let category_name :=
    replChar ' ' '_' (replChar 'å' 'a'
      (replChar 'ä' 'a' (replChar 'ö' 'o' (category.data.map pyLower))))
  match CATEGORY_FILES.find? (fun kv => substrIn kv.1.data category_name) with
  | some kv => kv.2
  | none => "internmedicin.yaml"

/-- The closed category enumeration that the oracle is constrained to
(the `enum` in `build_schema` of import_new_questions_csv.py, equal to
the list in both SYSTEM_PROMPTs). -/
def ORACLE_CATEGORIES : List String :=
  ["Neurologi", "Internmedicin", "Allmänmedicin", "Psykiatri", "Ortopedi",
   "Kirurgi", "Akutmedicin", "Diabetologi", "Endokrinologi", "Gastroenterologi",
   "Hepatologi", "Hematologi", "Kardiologi", "Lungmedicin", "Njurmedicin",
   "Klinisk Farmakologi", "Öron-Näsa-Hals"]

/-! ### Resume log

`append_to_log` of import_new_questions_csv.py: under the single global
`log_lock`, read the whole persisted set, add the one identifier, and
write the whole set back.  The persisted JSON list is modelled as a
`List String` with set semantics (Python serializes `list(set)` in an
unspecified order; we canonically append new elements at the end —
every claim about the log is a membership property, insensitive to
order).  migrate.py's in-memory `processed_ids.add` followed by
`save_log` has the same state effect and reuses this definition. -/
def append_to_log (log : List String) (id : String) : List String :=
  if log.contains id then log else log ++ [id]

/-! ### Destination stores

A destination YAML file as `safe_append_yaml` sees it: missing, parsed
to a list, unparsable (`yaml.YAMLError`), or parsed to something other
than a list.  `safe_append_yaml` holds the per-filename lock for its
whole read-merge-write, so each call is one atomic step on the store
map; list items are tagged with the source identifier of the record
whose enrichment was appended (the enriched payload itself is opaque
to every property verified here). -/
inductive YDoc where
  | absent
  | list (items : List String)
  | unparsable
  | nonList
deriving DecidableEq

/-- The `existing_data` that `safe_append_yaml` ends up with after its
read step: a parsed list is kept, everything else becomes `[]`. -/
def docItems : YDoc → List String
  | .list l => l
  | _ => []

/-- Number of records a store durably holds. -/
def docLen (d : YDoc) : Nat := (docItems d).length

/-- `safe_append_yaml` of import_new_questions_csv.py as one atomic
step on the store map (the per-filename lock spans the whole body):
read the named file, treat absent/unparsable/non-list content as `[]`,
append the one record, write the whole list back.  Other files are
untouched. -/
def safe_append_yaml (stores : String → YDoc) (filename : String) (item : String) :
    String → YDoc :=
  fun f =>
    if f = filename then YDoc.list (docItems (stores filename) ++ [item]) else stores f

/-! ### The import_new_questions_csv.py pipeline -/

/-- A CSV row that passed the structural guards of `main`'s reading
loop (non-empty, at least three fields): `row[0]`, `row[1]`,
`row[2:]`. -/
structure RawRow where
  id : String
  question : String
  options : List String
deriving DecidableEq

/-- The oracle's parsed response: the category label.  (The `data`
payload is opaque to every claim; appended store items are tagged by
the source identifier instead.) -/
structure ClassifiedQuestion where
  category : String
deriving DecidableEq

/-- The enrichment call: `None` models any raised exception inside the
`try` of `process_data` (network failure, malformed response, ...). -/
def Oracle := RawRow → Option ClassifiedQuestion

/-- The poison-record test of `main` (line 307):
`"[SE BILD" in question or "SE BILD" in question`. -/
def poison (q : String) : Bool :=
  substrIn "[SE BILD".data q.data || substrIn "SE BILD".data q.data

/-- `main`'s CSV reading loop: thread the on-disk log (`fileLog`)
left to right; a row whose id is in the startup snapshot `processed`
is skipped, a poison row is marked in the log and skipped, every other
row joins `rows_to_process` in order.  Returns the final on-disk log
and `rows_to_process`. -/
def read_rows (processed : List String) (fileLog : List String) :
    List RawRow → List String × List RawRow
  | [] => (fileLog, [])
  | r :: rest =>
    if processed.contains r.id then read_rows processed fileLog rest
    else if poison r.question then read_rows processed (append_to_log fileLog r.id) rest
    else
      let p := read_rows processed fileLog rest
      (p.1, r :: p.2)

/-- Durable pipeline state: the persisted resume log and the store
files. -/
structure PState where
  log : List String
  stores : String → YDoc

/-- State effect of one worker (`process_data`): call the oracle; on
failure leave the state untouched; on success append to the routed
store, then mark the source id in the log. -/
def process_data (ω : Oracle) (st : PState) (r : RawRow) : PState :=
  match ω r with
  | none => st
  | some res =>
    { log := append_to_log st.log r.id,
      stores := safe_append_yaml st.stores (get_dest_file res.category) r.id }

/-- The thread-pool phase of `main`: every row of `rows_to_process` is
dispatched; each claim proved below is a property of the final state
or of per-record membership, invariant under the completion order, so
the workers are run in list order. -/
def run_all (ω : Oracle) (rs : List RawRow) (st : PState) : PState :=
  rs.foldl (process_data ω) st

/-- `main` of import_new_questions_csv.py: load the log, filter the
rows, dispatch the rest. -/
def import_main (ω : Oracle) (rows : List RawRow) (log0 : List String)
    (stores0 : String → YDoc) : PState :=
  let rd := read_rows log0 log0 rows
  run_all ω rd.2 ⟨rd.1, stores0⟩

/-! #### Event traces of the import pipeline -/

/-- Observable events: an enrichment request, a durable store append,
a durable log write. -/
inductive Ev where
  | oracleCall (id : String)
  | storeAppend (file : String) (id : String)
  | logWrite (id : String)
deriving DecidableEq

/-- The events of one `process_data` worker, in program order:
the oracle call, then — only on success — the store append followed by
the log write. -/
def process_data_trace (ω : Oracle) (r : RawRow) : List Ev :=
  Ev.oracleCall r.id ::
    (match ω r with
     | none => []
     | some res => [Ev.storeAppend (get_dest_file res.category) r.id,
                    Ev.logWrite r.id])

/-- Events of the dispatch phase, workers serialized in list order. -/
def run_trace (ω : Oracle) (rs : List RawRow) : List Ev :=
  (rs.map (process_data_trace ω)).flatten

/-- Events of a whole run of import_new_questions_csv.py. -/
def import_trace (ω : Oracle) (rows : List RawRow) (log0 : List String) : List Ev :=
  run_trace ω (read_rows log0 log0 rows).2

/-- Is the event an oracle call? -/
def isCallEv : Ev → Bool
  | .oracleCall _ => true
  | _ => false

/-- A trace is phase-separated when every event satisfying `p` comes
before every event refuting it: once a non-`p` event occurs, no `p`
event follows.  With `p` the oracle-call test this is exactly
"the batch is fully drained before anything is flushed". -/
def phaseSepB {α : Type} (p : α → Bool) : List α → Bool
  | [] => true
  | e :: r => if p e then phaseSepB p r else r.all (fun x => !p x)

/-! ### The migrate.py pipeline -/

/-- A raw source question of migrate.py; only its stable `number`
matters to the properties below. -/
structure MQ where
  number : String
deriving DecidableEq

/-- The migrate oracle: on success the category label of the parsed
response, `None` for any raised exception. -/
def MOracle := MQ → Option String

/-- `process_question` of migrate.py: call the oracle; on success
route the category and return `(target_file, number)` — the returned
`data` payload is opaque here and the pair is tagged by the source
number; on failure return `None`. -/
def process_question (mω : MOracle) (q : MQ) : Option (String × String) :=
  (mω q).map fun c => (migrate_route c, q.number)

/-- migrate.py line 174. -/
def BATCH_SIZE : Nat := 10

/-- `range(0, len(l), BATCH_SIZE)` slicing, by fuel (each step consumes
at least one element, so `l.length` steps suffice). -/
def chunksF {α : Type} : Nat → List α → List (List α)
  | 0, _ => []
  | _ + 1, [] => []
  | fuel + 1, x :: xs =>
    ((x :: xs).take BATCH_SIZE) :: chunksF fuel ((x :: xs).drop BATCH_SIZE)

/-- The batches `to_process[i : i+BATCH_SIZE]` of migrate.py's main
loop. -/
def chunks {α : Type} (l : List α) : List (List α) := chunksF l.length l

/-- Durable migrate state: store files (as parsed lists tagged by
source number) and the persisted `processed_ids`. -/
structure MState where
  stores : String → List String
  plog : List String

/-- The successfully processed source numbers of one batch, in
completion order. -/
def succNums (mω : MOracle) (b : List MQ) : List String :=
  (b.filterMap (process_question mω)).map (·.2)

/-- One iteration of migrate.py's batch loop: drain the batch
(collect `process_question` results and mark their numbers), then
flush — every target file is rewritten with its old content followed
by the batch's records for it, and `save_log` rewrites the whole
log. -/
def mbatch_step (mω : MOracle) (st : MState) (b : List MQ) : MState :=
  let results := b.filterMap (process_question mω)
  { stores := fun f => st.stores f ++ (results.filter (fun p => p.1 == f)).map (·.2),
    plog := (succNums mω b).foldl append_to_log st.plog }

/-- `main` of migrate.py: filter out already-processed numbers, then
run the batch loop. -/
def migrate_run (mω : MOracle) (source : List MQ) (log0 : List String)
    (stores0 : String → List String) : MState :=
  let to_process := source.filter (fun q => !(log0.contains q.number))
  (chunks to_process).foldl (mbatch_step mω) ⟨stores0, log0⟩

/-- Observable migrate events: an enrichment request, one destination
file rewritten during the batch flush, the log rewritten by
`save_log`. -/
inductive MEv where
  | oracleCall (number : String)
  | storeFlush (file : String)
  | logFlush
deriving DecidableEq

/-- Is the migrate event an oracle call? -/
def misCall : MEv → Bool
  | .oracleCall _ => true
  | _ => false

/-- Events of one iteration of migrate.py's batch loop, in program
order: all of the batch's oracle calls (the `as_completed` drain),
then one rewrite per distinct target file of the batch, then the
`save_log` rewrite. -/
def mbatch_trace (mω : MOracle) (b : List MQ) : List MEv :=
  b.map (fun q => MEv.oracleCall q.number)
    ++ (((b.filterMap (process_question mω)).map (·.1)).dedup).map MEv.storeFlush
    ++ [MEv.logFlush]

/-- Events of a whole run of migrate.py. -/
def migrate_trace (mω : MOracle) (source : List MQ) (log0 : List String) : List MEv :=
  ((chunks (source.filter (fun q => !(log0.contains q.number)))).map
    (mbatch_trace mω)).flatten

/-! ### Helper lemmas on the resume log -/

theorem mem_append_to_log {log : List String} {id x : String} :
    x ∈ append_to_log log id ↔ x ∈ log ∨ x = id := by
  simp only [append_to_log]
  split
  · next h =>
    simp at h
    constructor
    · exact Or.inl
    · rintro (hx | rfl)
      · exact hx
      · exact h
  · next h => simp

theorem append_to_log_mono {log : List String} {id x : String} (h : x ∈ log) :
    x ∈ append_to_log log id :=
  mem_append_to_log.mpr (Or.inl h)

theorem mem_foldl_append_to_log {ids : List String} :
    ∀ {log : List String} {x : String},
      x ∈ ids.foldl append_to_log log ↔ x ∈ log ∨ x ∈ ids := by
  induction ids with
  | nil => simp
  | cons i t ih =>
    intro log x
    simp only [List.foldl_cons]
    rw [ih, mem_append_to_log]
    simp only [List.mem_cons]
    tauto

/-! ### Helper lemmas on the CSV reading loop -/

theorem read_rows_log_mono {processed : List String} {y : String} :
    ∀ {rows : List RawRow} {fileLog : List String}, y ∈ fileLog →
      y ∈ (read_rows processed fileLog rows).1 := by
  intro rows
  induction rows with
  | nil => intro fl h; simpa [read_rows] using h
  | cons r rest ih =>
    intro fl h
    simp only [read_rows]
    split
    · exact ih h
    · split
      · exact ih (append_to_log_mono h)
      · exact ih h

theorem read_rows_toProc {processed : List String} :
    ∀ {rows : List RawRow} {fileLog : List String} {r : RawRow},
      r ∈ (read_rows processed fileLog rows).2 →
      r ∈ rows ∧ processed.contains r.id = false ∧ poison r.question = false := by
  intro rows
  induction rows with
  | nil => intro fl r h; simp [read_rows] at h
  | cons a rest ih =>
    intro fl r h
    simp only [read_rows] at h
    split at h
    · obtain ⟨h1, h2, h3⟩ := ih h
      exact ⟨List.mem_cons_of_mem _ h1, h2, h3⟩
    · split at h
      · obtain ⟨h1, h2, h3⟩ := ih h
        exact ⟨List.mem_cons_of_mem _ h1, h2, h3⟩
      · next hc hp =>
        rcases List.mem_cons.mp h with rfl | htail
        · refine ⟨List.mem_cons_self _ _, ?_, ?_⟩
          · simpa using hc
          · simpa using hp
        · obtain ⟨h1, h2, h3⟩ := ih htail
          exact ⟨List.mem_cons_of_mem _ h1, h2, h3⟩

theorem read_rows_mark {processed : List String} :
    ∀ {rows : List RawRow} {fileLog : List String} {r : RawRow},
      r ∈ rows → poison r.question = true → processed.contains r.id = false →
      r.id ∈ (read_rows processed fileLog rows).1 := by
  intro rows
  induction rows with
  | nil => intro fl r h _ _; simp at h
  | cons a rest ih =>
    intro fl r hmem hp hc
    rcases List.mem_cons.mp hmem with rfl | htail
    · simp only [read_rows]
      rw [if_neg (by simpa using hc), if_pos hp]
      exact read_rows_log_mono (mem_append_to_log.mpr (Or.inr rfl))
    · simp only [read_rows]
      split
      · exact ih htail hp hc
      · split
        · exact ih htail hp hc
        · exact ih htail hp hc

/-! ### Helper lemmas on the dispatch phase -/

/-- The source ids of the records whose enrichment call succeeds. -/
def successIds (ω : Oracle) (rs : List RawRow) : List String :=
  (rs.filter (fun r => (ω r).isSome)).map (·.id)

theorem mem_log_run_all {ω : Oracle} :
    ∀ {rs : List RawRow} {st : PState} {x : String},
      x ∈ (run_all ω rs st).log ↔ x ∈ st.log ∨ x ∈ successIds ω rs := by
  intro rs
  induction rs with
  | nil => intro st x; simp [run_all, successIds]
  | cons r rest ih =>
    intro st x
    show x ∈ (run_all ω rest (process_data ω st r)).log ↔ _
    rw [ih]
    cases hω : ω r with
    | none =>
      simp [process_data, hω, successIds]
    | some res =>
      simp only [process_data, hω, successIds, List.filter_cons, Option.isSome_some,
        if_pos, List.map_cons, List.mem_cons, mem_append_to_log]
      tauto

theorem mem_stores_run_all {ω : Oracle} :
    ∀ {rs : List RawRow} {st : PState} {f : String} {x : String},
      x ∈ docItems ((run_all ω rs st).stores f) →
      x ∈ docItems (st.stores f) ∨ x ∈ successIds ω rs := by
  intro rs
  induction rs with
  | nil => intro st f x h; simpa [run_all] using Or.inl h
  | cons r rest ih =>
    intro st f x h
    have h' := ih
      (show x ∈ docItems ((run_all ω rest (process_data ω st r)).stores f) from h)
    cases hω : ω r with
    | none =>
      simp only [process_data, hω] at h'
      rcases h' with h1 | h2
      · exact Or.inl h1
      · refine Or.inr ?_
        simp [successIds, hω] at h2 ⊢
        exact h2
    | some res =>
      rcases h' with h1 | h2
      · simp only [process_data, hω, safe_append_yaml] at h1
        by_cases hf : f = get_dest_file res.category
        · rw [if_pos hf] at h1
          simp only [docItems, List.mem_append, List.mem_singleton] at h1
          rcases h1 with h1a | rfl
          · rw [hf]; exact Or.inl h1a
          · refine Or.inr ?_
            simp [successIds, hω]
        · rw [if_neg hf] at h1
          exact Or.inl h1
      · refine Or.inr ?_
        simp [successIds, hω] at h2 ⊢
        exact Or.inr h2

theorem run_trace_call_mem {ω : Oracle} {rs : List RawRow} {y : String}
    (h : Ev.oracleCall y ∈ run_trace ω rs) : ∃ r ∈ rs, r.id = y := by
  simp only [run_trace, List.mem_flatten, List.mem_map] at h
  obtain ⟨tr, ⟨r, hr, rfl⟩, hev⟩ := h
  refine ⟨r, hr, ?_⟩
  simp only [process_data_trace, List.mem_cons] at hev
  rcases hev with h1 | h2
  · simpa using h1.symm
  · cases hω : ω r with
    | none => rw [hω] at h2; simp at h2
    | some res => rw [hω] at h2; simp at h2

theorem run_trace_store_mem {ω : Oracle} {rs : List RawRow} {g y : String}
    (h : Ev.storeAppend g y ∈ run_trace ω rs) : ∃ r ∈ rs, r.id = y := by
  simp only [run_trace, List.mem_flatten, List.mem_map] at h
  obtain ⟨tr, ⟨r, hr, rfl⟩, hev⟩ := h
  refine ⟨r, hr, ?_⟩
  simp only [process_data_trace, List.mem_cons] at hev
  rcases hev with h1 | h2
  · exact absurd h1 (by simp)
  · cases hω : ω r with
    | none => rw [hω] at h2; simp at h2
    | some res =>
      rw [hω] at h2
      simp only [List.mem_cons, List.mem_singleton] at h2
      rcases h2 with h2a | h2b
      · injection h2a with _ h; exact h.symm
      · exact absurd h2b (by simp)

/-- Injectivity on members from a `Nodup` image list. -/
theorem nodup_map_inj {α β : Type} {f : α → β} {l : List α}
    (d : (l.map f).Nodup) {a b : α} (ha : a ∈ l) (hb : b ∈ l) (h : f a = f b) :
    a = b :=
  List.inj_on_of_nodup_map d ha hb h

/-! ### Helper lemmas on the migrate batch loop -/

theorem chunksF_flatten {α : Type} :
    ∀ {fuel : Nat} {l : List α}, l.length ≤ fuel → (chunksF fuel l).flatten = l := by
  intro fuel
  induction fuel with
  | zero =>
    intro l h
    have : l = [] := List.eq_nil_of_length_eq_zero (Nat.le_zero.mp h)
    subst this; rfl
  | succ n ih =>
    intro l h
    cases l with
    | nil => rfl
    | cons x xs =>
      simp only [chunksF, List.flatten_cons]
      rw [ih ?_]
      · exact List.take_append_drop _ _
      · simp only [List.length_drop, BATCH_SIZE, List.length_cons]
        simp only [List.length_cons] at h
        omega

theorem chunks_flatten {α : Type} (l : List α) : (chunks l).flatten = l :=
  chunksF_flatten (Nat.le_refl _)

theorem mem_succNums {mω : MOracle} {b : List MQ} {x : String} :
    x ∈ succNums mω b ↔ ∃ q ∈ b, (mω q).isSome = true ∧ q.number = x := by
  simp only [succNums, List.mem_map, List.mem_filterMap, process_question]
  constructor
  · rintro ⟨p, ⟨q, hq, hsome⟩, rfl⟩
    cases hmq : mω q with
    | none => rw [hmq] at hsome; simp at hsome
    | some c =>
      rw [hmq] at hsome
      simp only [Option.map_some'] at hsome
      cases hsome
      exact ⟨q, hq, by simp [hmq], rfl⟩
  · rintro ⟨q, hq, hsome, rfl⟩
    cases hmq : mω q with
    | none => rw [hmq] at hsome; simp at hsome
    | some c =>
      exact ⟨(migrate_route c, q.number), ⟨q, hq, by rw [hmq]; rfl⟩, rfl⟩

theorem mem_plog_mbatch_fold {mω : MOracle} :
    ∀ {bs : List (List MQ)} {st : MState} {x : String},
      x ∈ (bs.foldl (mbatch_step mω) st).plog ↔
        x ∈ st.plog ∨ ∃ b ∈ bs, x ∈ succNums mω b := by
  intro bs
  induction bs with
  | nil => intro st x; simp
  | cons b rest ih =>
    intro st x
    show x ∈ (rest.foldl (mbatch_step mω) (mbatch_step mω st b)).plog ↔ _
    rw [ih, List.exists_mem_cons_iff]
    have hstep : x ∈ (mbatch_step mω st b).plog ↔ x ∈ st.plog ∨ x ∈ succNums mω b := by
      simp only [mbatch_step]
      exact mem_foldl_append_to_log
    rw [hstep]
    tauto

theorem mem_stores_mbatch_fold {mω : MOracle} :
    ∀ {bs : List (List MQ)} {st : MState} {f : String} {x : String},
      x ∈ (bs.foldl (mbatch_step mω) st).stores f →
      x ∈ st.stores f ∨ ∃ b ∈ bs, x ∈ succNums mω b := by
  intro bs
  induction bs with
  | nil => intro st f x h; exact Or.inl h
  | cons b rest ih =>
    intro st f x h
    have h' := ih
      (show x ∈ (rest.foldl (mbatch_step mω) (mbatch_step mω st b)).stores f from h)
    rcases h' with h1 | h2
    · simp only [mbatch_step, List.mem_append] at h1
      rcases h1 with h1a | h1b
      · exact Or.inl h1a
      · refine Or.inr ⟨b, List.mem_cons_self _ _, ?_⟩
        simp only [List.mem_map] at h1b
        obtain ⟨p, hp, rfl⟩ := h1b
        have hp' : p ∈ b.filterMap (process_question mω) := (List.mem_filter.mp hp).1
        exact List.mem_map_of_mem _ hp'
    · obtain ⟨b', hb', hx⟩ := h2
      exact Or.inr ⟨b', List.mem_cons_of_mem _ hb', hx⟩

/-! ### Phase separation -/

theorem phaseSepB_append {α : Type} (p : α → Bool) :
    ∀ {u v : List α}, (∀ e ∈ u, p e = true) → (∀ e ∈ v, p e = false) →
      phaseSepB p (u ++ v) = true := by
  intro u
  induction u with
  | nil =>
    intro v _ hv
    cases v with
    | nil => rfl
    | cons e r =>
      simp only [List.nil_append, phaseSepB]
      rw [if_neg (by simp [hv e (List.mem_cons_self _ _)])]
      rw [List.all_eq_true]
      intro x hx
      simp [hv x (List.mem_cons_of_mem _ hx)]
  | cons e u ih =>
    intro v hu hv
    simp only [List.cons_append, phaseSepB]
    rw [if_pos (hu e (List.mem_cons_self _ _))]
    exact ih (fun x hx => hu x (List.mem_cons_of_mem _ hx)) hv

/-! ### Helper lemmas on the destination store writer -/

theorem safe_append_yaml_comm {S : String → YDoc} {f g x y : String} (h : f ≠ g) :
    safe_append_yaml (safe_append_yaml S f x) g y
      = safe_append_yaml (safe_append_yaml S g y) f x := by
  funext z
  simp only [safe_append_yaml]
  by_cases hzg : z = g <;> by_cases hzf : z = f
  · exact absurd (hzf.symm.trans hzg) h
  · simp [hzg, hzf, if_neg (Ne.symm h), if_neg h]
  · simp [hzg, hzf, if_neg (Ne.symm h), if_neg h]
  · simp [hzg, hzf]

theorem docLen_foldl_append {ops : List (String × String)} :
    ∀ {S0 : String → YDoc} {f : String},
      docLen ((ops.foldl (fun S p => safe_append_yaml S p.1 p.2) S0) f)
        = docLen (S0 f) + (ops.filter (fun p => p.1 == f)).length := by
  induction ops with
  | nil => intro S0 f; simp
  | cons op rest ih =>
    intro S0 f
    simp only [List.foldl_cons, List.filter_cons]
    rw [ih]
    by_cases hf : op.1 = f
    · subst hf
      rw [if_pos (by simp)]
      have hone : docLen (safe_append_yaml S0 op.1 op.2 op.1) = docLen (S0 op.1) + 1 := by
        simp [safe_append_yaml, docLen, docItems]
      rw [hone]
      simp only [List.length_cons]
      omega
    · rw [if_neg (by simpa using hf)]
      have hsame : safe_append_yaml S0 op.1 op.2 f = S0 f := by
        simp only [safe_append_yaml]
        rw [if_neg (fun hc => hf hc.symm)]
      rw [hsame]

/-! ## The claims -/

/-- C3 counterexample: at the wholly-unknown label "Zzz" the two route
implementations do not share a single well-known miscellaneous
fallback store: import_new_questions_csv.py falls back to
"blandat.yaml", but migrate.py falls back to "internmedicin.yaml" —
which is a regular category destination (a value of the category
table), not a miscellaneous store ("blandat.yaml" is not a table
value). -/
theorem c3_single_fallback_counterexample :
    get_dest_file "Zzz" = "blandat.yaml"
    ∧ migrate_route "Zzz" = "internmedicin.yaml"
    ∧ ("internmedicin.yaml" : String) ≠ "blandat.yaml"
    ∧ "internmedicin.yaml" ∈ DEST_VALUES
    ∧ "blandat.yaml" ∉ DEST_VALUES := by
  decide

/-- C3 amended: routing is total in both scripts — for every category
label, `get_dest_file` returns a table value or its own fallback
"blandat.yaml", and migrate.py's routing returns "internmedicin.yaml"
(its own fallback) or a table value; neither ever fails or drops a
record.  But the two fallbacks differ, and migrate.py's is a regular
category store, so there is no single well-known miscellaneous
fallback. -/
theorem c3_routing_total (category : String) :
    get_dest_file category ∈ DEST_VALUES ++ ["blandat.yaml"]
    ∧ migrate_route category ∈ "internmedicin.yaml" :: DEST_VALUES := by
  constructor
  · simp only [get_dest_file]
    split
    · next kv heq =>
      exact List.mem_append_left _ (List.mem_map_of_mem _ (List.mem_of_find?_eq_some heq))
    · split
      · next kv heq =>
        exact List.mem_append_left _ (List.mem_map_of_mem _ (List.mem_of_find?_eq_some heq))
      · simp
  · simp only [migrate_route]
    split
    · next kv heq =>
      exact List.mem_cons_of_mem _ (List.mem_map_of_mem _ (List.mem_of_find?_eq_some heq))
    · exact List.mem_cons_self _ _

/-- C4: the routing of the oracle's closed category enumeration by
`get_dest_file`, evaluated label by label.  Sixteen of the seventeen
labels reach their own category file, but "Öron-Näsa-Hals" is routed
to the fallback "blandat.yaml": its lower-cased form keeps ö and ä, so
the exact tier misses the ASCII table key, and the substring tier
replaces hyphens by underscores, so the two hyphenated table keys
dedicated to this category can never match.  This evaluates the code
at the failing input of the recorded code bug. -/
theorem c4_enum_routing :
    ORACLE_CATEGORIES.map get_dest_file =
      ["neurologi.yaml", "internmedicin.yaml", "allmanmedicin.yaml", "psykiatri.yaml",
       "ortopedi.yaml", "kirurgi.yaml", "akutmedicin.yaml", "diabetologi.yaml",
       "endokrinologi.yaml", "gastroenterologi.yaml", "hepatologi.yaml",
       "hematologi.yaml", "kardiologi.yaml", "lungmedicin.yaml", "njurmedicin.yaml",
       "klinisk_farmakologi.yaml", "blandat.yaml"] := by
  decide

/-- C5: `append_to_log` — executed under the single global `log_lock`,
which serializes calls, so runs compose sequentially — reads the full
persisted set, adds the one identifier and rewrites the entire set:
the persisted log after the call holds exactly the previous members
together with the new identifier, and no previously logged identifier
is ever lost by any sequence of mark operations. -/
theorem c5_mark_processed_union :
    (∀ (log : List String) (id x : String),
        x ∈ append_to_log log id ↔ x ∈ log ∨ x = id)
    ∧ (∀ (ids log : List String) (x : String), x ∈ log →
        x ∈ ids.foldl append_to_log log) :=
  ⟨fun _ _ _ => mem_append_to_log,
   fun _ _ _ h => mem_foldl_append_to_log.mpr (Or.inl h)⟩

/-- C5 witness: the union law and loss-freedom evaluated at concrete
logs. -/
theorem c5_mark_processed_union_witness :
    ("a" : String) ∈ ["a"]
    ∧ (("a" : String) ∈ append_to_log ["a"] "b" ↔ "a" ∈ ["a"] ∨ "a" = "b")
    ∧ ("a" : String) ∈ ["b", "c"].foldl append_to_log ["a"] :=
  ⟨by decide, c5_mark_processed_union.1 ["a"] "b" "a",
   c5_mark_processed_union.2 ["b", "c"] ["a"] "a" (by decide)⟩

/-- C6 counterexample: on a concrete successfully enriched record the
worker's trace places the durable store append strictly before the
resume-log write, so the log persistence does not happen "no later
than" the store append — the code's order is the reverse of the
claimed one. -/
theorem c6_log_order_counterexample :
    process_data_trace (fun _ => some ⟨"Neurologi"⟩) ⟨"q1", "Vilket svar?", ["a", "b"]⟩
      = [Ev.oracleCall "q1", Ev.storeAppend "neurologi.yaml" "q1", Ev.logWrite "q1"]
    ∧ ¬ (List.indexOf (Ev.logWrite "q1")
          (process_data_trace (fun _ => some ⟨"Neurologi"⟩) ⟨"q1", "Vilket svar?", ["a", "b"]⟩)
        ≤ List.indexOf (Ev.storeAppend "neurologi.yaml" "q1")
          (process_data_trace (fun _ => some ⟨"Neurologi"⟩) ⟨"q1", "Vilket svar?", ["a", "b"]⟩)) := by
  decide

/-- C6 amended: for every record whose enrichment succeeds the worker
performs, in program order, the oracle call, then the durable store
append, then the resume-log write — the log persistence happens
strictly after the store append.  A crash between the two therefore
leaves the record appended but unlogged, so the next run re-enriches
it and appends a duplicate: the failure window produces duplicates,
never records appended while already logged. -/
theorem c6_append_then_log (ω : Oracle) (r : RawRow) (res : ClassifiedQuestion)
    (h : ω r = some res) :
    process_data_trace ω r
      = [Ev.oracleCall r.id, Ev.storeAppend (get_dest_file res.category) r.id,
         Ev.logWrite r.id] := by
  simp [process_data_trace, h]

/-- C6 witness: the amended order at a concrete successful record. -/
theorem c6_append_then_log_witness :
    (fun _ => some (⟨"Kardiologi"⟩ : ClassifiedQuestion)) (⟨"q2", "Fråga", ["a"]⟩ : RawRow)
        = some ⟨"Kardiologi"⟩
    ∧ process_data_trace (fun _ => some ⟨"Kardiologi"⟩) (⟨"q2", "Fråga", ["a"]⟩ : RawRow)
      = [Ev.oracleCall "q2", Ev.storeAppend (get_dest_file "Kardiologi") "q2",
         Ev.logWrite "q2"] :=
  ⟨rfl, c6_append_then_log (fun _ => some ⟨"Kardiologi"⟩) ⟨"q2", "Fråga", ["a"]⟩
    ⟨"Kardiologi"⟩ rfl⟩

/-- C9: store isolation.  Each `safe_append_yaml` holds the
per-filename lock for its whole read-merge-write, so it is one atomic
step; appends to two different stores commute — they touch disjoint
state, so writers to different stores are independent of each other —
and any serialization of appends to one store loses no update: the
final length of a store equals its initial length plus the number of
appends that targeted it. -/
theorem c9_store_isolation :
    (∀ (S : String → YDoc) (f g x y : String), f ≠ g →
      safe_append_yaml (safe_append_yaml S f x) g y
        = safe_append_yaml (safe_append_yaml S g y) f x)
    ∧ ∀ (ops : List (String × String)) (S0 : String → YDoc) (f : String),
        docLen ((ops.foldl (fun S p => safe_append_yaml S p.1 p.2) S0) f)
          = docLen (S0 f) + (ops.filter (fun p => p.1 == f)).length :=
  ⟨fun _ _ _ _ _ h => safe_append_yaml_comm h, fun _ _ _ => docLen_foldl_append⟩

/-- C9 witness: commutation and the length law at concrete appends. -/
theorem c9_store_isolation_witness :
    ("neurologi.yaml" : String) ≠ "psykiatri.yaml"
    ∧ safe_append_yaml (safe_append_yaml (fun _ => YDoc.absent) "neurologi.yaml" "q1")
        "psykiatri.yaml" "q2"
      = safe_append_yaml (safe_append_yaml (fun _ => YDoc.absent) "psykiatri.yaml" "q2")
        "neurologi.yaml" "q1"
    ∧ docLen (([("neurologi.yaml", "q1"), ("psykiatri.yaml", "q2"),
          ("neurologi.yaml", "q3")].foldl (fun S p => safe_append_yaml S p.1 p.2)
          (fun _ => YDoc.absent)) "neurologi.yaml")
      = docLen ((fun _ => (YDoc.absent : YDoc)) "neurologi.yaml")
        + ([("neurologi.yaml", "q1"), ("psykiatri.yaml", "q2"),
            ("neurologi.yaml", "q3")].filter (fun p => p.1 == "neurologi.yaml")).length :=
  ⟨by decide,
   c9_store_isolation.1 (fun _ => YDoc.absent) "neurologi.yaml" "psykiatri.yaml" "q1" "q2"
     (by decide),
   c9_store_isolation.2 _ _ _⟩

/-- C10: when the existing destination file is unparsable or parses to
something other than a list, `safe_append_yaml` silently treats the
store as empty and rewrites the file containing only the newly
appended record, discarding whatever the file previously held, instead
of raising an error. -/
theorem c10_malformed_store_discarded (S : String → YDoc) (f item : String)
    (h : S f = YDoc.unparsable ∨ S f = YDoc.nonList) :
    safe_append_yaml S f item f = YDoc.list [item] := by
  rcases h with h | h <;> simp [safe_append_yaml, h, docItems]

/-- C10 witness: an unparsable store is overwritten with just the new
record. -/
theorem c10_malformed_store_discarded_witness :
    ((fun _ => YDoc.unparsable) "blandat.yaml" = YDoc.unparsable
      ∨ (fun _ => YDoc.unparsable) "blandat.yaml" = YDoc.nonList)
    ∧ safe_append_yaml (fun _ => YDoc.unparsable) "blandat.yaml" "q7" "blandat.yaml"
        = YDoc.list ["q7"] :=
  ⟨Or.inl rfl,
   c10_malformed_store_discarded (fun _ => YDoc.unparsable) "blandat.yaml" "q7"
     (Or.inl rfl)⟩

/-- C1: idempotence under replay.  If every record's source identifier
is already in the loaded resume log, then in both scripts the skip
filter removes every record before any dispatch: the import reading
loop returns the unchanged log and an empty `rows_to_process`, the run
makes zero oracle calls and zero durable mutations (empty trace, final
state equal to the initial state), and migrate.py's `to_process` is
empty with the same consequences. -/
theorem c1_replay_idempotent (ω : Oracle) (rows : List RawRow) (log0 : List String)
    (stores0 : String → YDoc) (mω : MOracle) (source : List MQ) (mlog0 : List String)
    (mstores0 : String → List String)
    (h : ∀ r ∈ rows, r.id ∈ log0) (hm : ∀ q ∈ source, q.number ∈ mlog0) :
    read_rows log0 log0 rows = (log0, [])
    ∧ import_main ω rows log0 stores0 = ⟨log0, stores0⟩
    ∧ import_trace ω rows log0 = []
    ∧ source.filter (fun q => !(mlog0.contains q.number)) = []
    ∧ migrate_run mω source mlog0 mstores0 = ⟨mstores0, mlog0⟩
    ∧ migrate_trace mω source mlog0 = [] := by
  have hread : ∀ (rows' : List RawRow), (∀ r ∈ rows', r.id ∈ log0) →
      read_rows log0 log0 rows' = (log0, []) := by
    intro rows'
    induction rows' with
    | nil => intro _; rfl
    | cons r rest ih =>
      intro hall
      have hr : log0.contains r.id = true := by
        simpa using hall r (List.mem_cons_self _ _)
      simp only [read_rows, if_pos hr]
      exact ih fun r' hr' => hall r' (List.mem_cons_of_mem _ hr')
  have hfilter : source.filter (fun q => !(mlog0.contains q.number)) = [] := by
    rw [List.filter_eq_nil_iff]
    intro q hq
    simpa using hm q hq
  refine ⟨hread rows h, ?_, ?_, hfilter, ?_, ?_⟩
  · simp only [import_main]
    rw [hread rows h]
    rfl
  · simp only [import_trace]
    rw [hread rows h]
    rfl
  · simp only [migrate_run]
    rw [hfilter]
    rfl
  · simp only [migrate_trace]
    rw [hfilter]
    rfl

/-- C1 witness: a one-record source per script, all identifiers
already logged. -/
theorem c1_replay_idempotent_witness :
    read_rows ["a"] ["a"] [⟨"a", "Q", ["x"]⟩] = (["a"], [])
    ∧ import_trace (fun _ => some ⟨"Neurologi"⟩) [⟨"a", "Q", ["x"]⟩] ["a"] = []
    ∧ migrate_trace (fun _ => some "Kardiologi") [⟨"n1"⟩] ["n1"] = [] := by
  have h := c1_replay_idempotent (fun _ => some ⟨"Neurologi"⟩) [⟨"a", "Q", ["x"]⟩] ["a"]
    (fun _ => YDoc.absent) (fun _ => some "Kardiologi") [⟨"n1"⟩] ["n1"] (fun _ => [])
    (by decide) (by decide)
  exact ⟨h.1, h.2.2.1, h.2.2.2.2.2⟩

/-- C2: partition tolerance.  In the import dispatch phase (for any
record list with distinct ids) and in migrate.py's main loop (for any
source with distinct numbers): a record whose enrichment call fails is
absent from the final resume log (provided it was not logged before
the run) and nothing is appended to any destination store for it,
while every record whose enrichment succeeds has its identifier in the
final log. -/
theorem c2_partition_tolerance
    (ω : Oracle) (rs : List RawRow) (st0 : PState)
    (mω : MOracle) (source : List MQ) (mlog0 : List String)
    (mstores0 : String → List String)
    (hnd : (rs.map (·.id)).Nodup) (hmnd : (source.map (·.number)).Nodup) :
    (∀ r ∈ rs, ω r = none → r.id ∉ st0.log → r.id ∉ (run_all ω rs st0).log)
    ∧ (∀ r ∈ rs, ω r = none → (∀ f, r.id ∉ docItems (st0.stores f)) →
        ∀ f, r.id ∉ docItems ((run_all ω rs st0).stores f))
    ∧ (∀ r ∈ rs, (ω r).isSome = true → r.id ∈ (run_all ω rs st0).log)
    ∧ (∀ q ∈ source, mω q = none → q.number ∉ mlog0 →
        q.number ∉ (migrate_run mω source mlog0 mstores0).plog)
    ∧ (∀ q ∈ source, mω q = none → (∀ f, q.number ∉ mstores0 f) →
        ∀ f, q.number ∉ (migrate_run mω source mlog0 mstores0).stores f)
    ∧ (∀ q ∈ source, (mω q).isSome = true →
        q.number ∈ (migrate_run mω source mlog0 mstores0).plog) := by
  have hsucc : ∀ {r : RawRow}, r ∈ rs → r.id ∈ successIds ω rs → (ω r).isSome = true := by
    intro r hr hid
    simp only [successIds, List.mem_map] at hid
    obtain ⟨r', hr', hid⟩ := hid
    have hr'' := List.mem_filter.mp hr'
    have : r' = r := nodup_map_inj hnd hr''.1 hr hid
    subst this
    exact hr''.2
  have hmsucc : ∀ {q : MQ}, q ∈ source →
      (∃ b ∈ chunks (source.filter (fun q' => !(mlog0.contains q'.number))),
        q.number ∈ succNums mω b) → (mω q).isSome = true := by
    intro q hq hex
    obtain ⟨b, hb, hnum⟩ := hex
    obtain ⟨q', hq', hsome, hnumeq⟩ := mem_succNums.mp hnum
    have hq'tp : q' ∈ source.filter (fun q'' => !(mlog0.contains q''.number)) := by
      rw [← chunks_flatten (source.filter (fun q'' => !(mlog0.contains q''.number)))]
      exact List.mem_flatten.mpr ⟨b, hb, hq'⟩
    have hq'src : q' ∈ source := (List.mem_filter.mp hq'tp).1
    have : q' = q := nodup_map_inj hmnd hq'src hq hnumeq
    subst this
    exact hsome
  refine ⟨?_, ?_, ?_, ?_, ?_, ?_⟩
  · intro r hr hfail hnot hmem
    rcases mem_log_run_all.mp hmem with h1 | h2
    · exact hnot h1
    · have hs := hsucc hr h2
      rw [hfail] at hs
      exact absurd hs (by simp)
  · intro r hr hfail hnot f hsmem
    rcases mem_stores_run_all hsmem with h1 | h2
    · exact hnot f h1
    · have hs := hsucc hr h2
      rw [hfail] at hs
      exact absurd hs (by simp)
  · intro r hr hsome
    refine mem_log_run_all.mpr (Or.inr ?_)
    simp only [successIds, List.mem_map]
    exact ⟨r, List.mem_filter.mpr ⟨hr, hsome⟩, rfl⟩
  · intro q hq hfail hnot hmem
    rcases mem_plog_mbatch_fold.mp hmem with h1 | h2
    · exact hnot h1
    · have hs := hmsucc hq h2
      rw [hfail] at hs
      exact absurd hs (by simp)
  · intro q hq hfail hnot f hmem
    rcases mem_stores_mbatch_fold hmem with h1 | h2
    · exact hnot f h1
    · have hs := hmsucc hq h2
      rw [hfail] at hs
      exact absurd hs (by simp)
  · intro q hq hsome
    by_cases hlog : mlog0.contains q.number = true
    · refine mem_plog_mbatch_fold.mpr (Or.inl ?_)
      simpa using hlog
    · have hqtp : q ∈ source.filter (fun q' => !(mlog0.contains q'.number)) :=
        List.mem_filter.mpr ⟨hq, by simpa using hlog⟩
      rw [← chunks_flatten (source.filter (fun q' => !(mlog0.contains q'.number)))] at hqtp
      obtain ⟨b, hb, hqb⟩ := List.mem_flatten.mp hqtp
      refine mem_plog_mbatch_fold.mpr (Or.inr ⟨b, hb, ?_⟩)
      exact mem_succNums.mpr ⟨q, hqb, hsome, rfl⟩

/-- C2 witness: one succeeding and one failing record per script. -/
theorem c2_partition_tolerance_witness :
    ("f1" : String) ∉ (run_all (fun r => if r.id = "s1" then some ⟨"Neurologi"⟩ else none)
        [⟨"s1", "A", ["x"]⟩, ⟨"f1", "B", ["y"]⟩] ⟨[], fun _ => YDoc.absent⟩).log
    ∧ ("f1" : String) ∉ docItems ((run_all
        (fun r => if r.id = "s1" then some ⟨"Neurologi"⟩ else none)
        [⟨"s1", "A", ["x"]⟩, ⟨"f1", "B", ["y"]⟩]
        ⟨[], fun _ => YDoc.absent⟩).stores "neurologi.yaml")
    ∧ ("s1" : String) ∈ (run_all (fun r => if r.id = "s1" then some ⟨"Neurologi"⟩ else none)
        [⟨"s1", "A", ["x"]⟩, ⟨"f1", "B", ["y"]⟩] ⟨[], fun _ => YDoc.absent⟩).log
    ∧ ("m2" : String) ∉ (migrate_run (fun q => if q.number = "m1" then some "Kardiologi" else none)
        [⟨"m1"⟩, ⟨"m2"⟩] [] (fun _ => [])).plog
    ∧ ("m2" : String) ∉ (migrate_run (fun q => if q.number = "m1" then some "Kardiologi" else none)
        [⟨"m1"⟩, ⟨"m2"⟩] [] (fun _ => [])).stores "kardiologi.yaml"
    ∧ ("m1" : String) ∈ (migrate_run (fun q => if q.number = "m1" then some "Kardiologi" else none)
        [⟨"m1"⟩, ⟨"m2"⟩] [] (fun _ => [])).plog := by
  have h := c2_partition_tolerance
    (fun r => if r.id = "s1" then some ⟨"Neurologi"⟩ else none)
    [⟨"s1", "A", ["x"]⟩, ⟨"f1", "B", ["y"]⟩] ⟨[], fun _ => YDoc.absent⟩
    (fun q => if q.number = "m1" then some "Kardiologi" else none)
    [⟨"m1"⟩, ⟨"m2"⟩] [] (fun _ => []) (by decide) (by decide)
  refine ⟨?_, ?_, ?_, ?_, ?_, ?_⟩
  · exact h.1 ⟨"f1", "B", ["y"]⟩ (by decide) (by decide) (by decide)
  · exact h.2.1 ⟨"f1", "B", ["y"]⟩ (by decide) (by decide)
      (fun f => List.not_mem_nil _) "neurologi.yaml"
  · exact h.2.2.1 ⟨"s1", "A", ["x"]⟩ (by decide) (by decide)
  · exact h.2.2.2.1 ⟨"m2"⟩ (by decide) (by decide) (by decide)
  · exact h.2.2.2.2.1 ⟨"m2"⟩ (by decide) (by decide)
      (fun f => List.not_mem_nil _) "kardiologi.yaml"
  · exact h.2.2.2.2.2 ⟨"m1"⟩ (by decide) (by decide)

/-- C7 counterexample: import_new_questions_csv.py has no batch
structure — every row is submitted to one thread pool and each worker
performs its own durable writes on completion.  On a two-record source
the run's trace interleaves the first record's durable store append
and log write before the second record's oracle call, so durable
writes happen before the record set is drained (for any grouping into
fixed-size batches containing both records): the trace is not
phase-separated. -/
theorem c7_batch_counterexample :
    import_trace (fun _ => some ⟨"Neurologi"⟩)
        [⟨"q1", "A", ["a"]⟩, ⟨"q2", "B", ["b"]⟩] []
      = [Ev.oracleCall "q1", Ev.storeAppend "neurologi.yaml" "q1", Ev.logWrite "q1",
         Ev.oracleCall "q2", Ev.storeAppend "neurologi.yaml" "q2", Ev.logWrite "q2"]
    ∧ phaseSepB isCallEv (import_trace (fun _ => some ⟨"Neurologi"⟩)
        [⟨"q1", "A", ["a"]⟩, ⟨"q2", "B", ["b"]⟩] []) = false := by
  decide

/-- C7 amended: migrate.py does follow the batch-drain-before-flush
policy with fixed batch size `BATCH_SIZE = 10`: every batch of its
main loop has a phase-separated trace — all of the batch's oracle
calls precede every durable write of the batch — and the `save_log`
rewrite is the batch's final event.  import_new_questions_csv.py has
no such batch structure (see the recorded counterexample). -/
theorem c7_migrate_batch_drain (mω : MOracle) (source : List MQ) (mlog0 : List String)
    (b : List MQ)
    (hb : b ∈ chunks (source.filter (fun q => !(mlog0.contains q.number)))) :
    phaseSepB misCall (mbatch_trace mω b) = true
    ∧ (mbatch_trace mω b).getLast? = some MEv.logFlush := by
  clear hb
  constructor
  · have hsep := phaseSepB_append (p := misCall)
      (u := b.map fun q => MEv.oracleCall q.number)
      (v := (((b.filterMap (process_question mω)).map (·.1)).dedup).map MEv.storeFlush
            ++ [MEv.logFlush])
      (fun e he => by obtain ⟨q, _, rfl⟩ := List.mem_map.mp he; rfl)
      (fun e he => by
        rcases List.mem_append.mp he with h1 | h2
        · obtain ⟨f, _, rfl⟩ := List.mem_map.mp h1; rfl
        · rw [List.mem_singleton] at h2; subst h2; rfl)
    simpa [mbatch_trace, List.append_assoc] using hsep
  · simp only [mbatch_trace]
    exact List.getLast?_concat _

/-- C7 witness: the amended property at a concrete one-record batch of
a concrete migrate run. -/
theorem c7_migrate_batch_drain_witness :
    [(⟨"m1"⟩ : MQ)] ∈ chunks ([(⟨"m1"⟩ : MQ)].filter (fun q => !((([] : List String)).contains q.number)))
    ∧ phaseSepB misCall (mbatch_trace (fun _ => some "Kardiologi") [(⟨"m1"⟩ : MQ)]) = true
    ∧ (mbatch_trace (fun _ => some "Kardiologi") [(⟨"m1"⟩ : MQ)]).getLast? = some MEv.logFlush := by
  have h := c7_migrate_batch_drain (fun _ => some "Kardiologi") [⟨"m1"⟩] [] [⟨"m1"⟩]
    (by decide)
  exact ⟨by decide, h.1, h.2⟩

/-- C8: poison-record short-circuit.  Every source record whose
question text contains the "SE BILD" marker (and whose id is not
already in the loaded log — with distinct ids in the source) is marked
in the resume log during the reading loop, removed from
`rows_to_process`, and the run performs no oracle call and no
destination-store append for it; its identifier is in the final log,
so it is never retried in a later run. -/
theorem c8_poison_short_circuit (ω : Oracle) (rows : List RawRow) (log0 : List String)
    (stores0 : String → YDoc) (r : RawRow)
    (hmem : r ∈ rows) (hp : poison r.question = true)
    (hnew : log0.contains r.id = false)
    (hnd : (rows.map (·.id)).Nodup) :
    r.id ∈ (read_rows log0 log0 rows).1
    ∧ r ∉ (read_rows log0 log0 rows).2
    ∧ Ev.oracleCall r.id ∉ import_trace ω rows log0
    ∧ (∀ f, Ev.storeAppend f r.id ∉ import_trace ω rows log0)
    ∧ r.id ∈ (import_main ω rows log0 stores0).log := by
  have h1 : r.id ∈ (read_rows log0 log0 rows).1 := read_rows_mark hmem hp hnew
  have h2 : r ∉ (read_rows log0 log0 rows).2 := by
    intro hc
    have hpf := (read_rows_toProc hc).2.2
    rw [hp] at hpf
    cases hpf
  have hnotproc : ∀ {r' : RawRow}, r' ∈ (read_rows log0 log0 rows).2 → r'.id = r.id → False := by
    intro r' hr' hid
    have hr'rows := (read_rows_toProc hr').1
    have : r' = r := nodup_map_inj hnd hr'rows hmem hid
    subst this
    exact h2 hr'
  refine ⟨h1, h2, ?_, ?_, ?_⟩
  · intro hc
    obtain ⟨r', hr', hid⟩ := run_trace_call_mem hc
    exact hnotproc hr' hid
  · intro f hc
    obtain ⟨r', hr', hid⟩ := run_trace_store_mem hc
    exact hnotproc hr' hid
  · show r.id ∈ (run_all ω (read_rows log0 log0 rows).2
      ⟨(read_rows log0 log0 rows).1, stores0⟩).log
    exact mem_log_run_all.mpr (Or.inl h1)

/-- C8 witness: a concrete poison record is logged and generates no
oracle call and no store append. -/
theorem c8_poison_short_circuit_witness :
    ("p1" : String) ∈ (read_rows [] [] [⟨"p1", "SE BILD: bild krävs", ["x"]⟩]).1
    ∧ Ev.oracleCall "p1" ∉ import_trace (fun _ => some ⟨"Neurologi"⟩)
        [⟨"p1", "SE BILD: bild krävs", ["x"]⟩] []
    ∧ Ev.storeAppend "blandat.yaml" "p1" ∉ import_trace (fun _ => some ⟨"Neurologi"⟩)
        [⟨"p1", "SE BILD: bild krävs", ["x"]⟩] []
    ∧ ("p1" : String) ∈ (import_main (fun _ => some ⟨"Neurologi"⟩)
        [⟨"p1", "SE BILD: bild krävs", ["x"]⟩] [] (fun _ => YDoc.absent)).log := by
  have h := c8_poison_short_circuit (fun _ => some ⟨"Neurologi"⟩)
    [⟨"p1", "SE BILD: bild krävs", ["x"]⟩] [] (fun _ => YDoc.absent)
    ⟨"p1", "SE BILD: bild krävs", ["x"]⟩ (by decide) (by decide) (by decide) (by decide)
  exact ⟨h.1, h.2.2.1, h.2.2.2.1 "blandat.yaml", h.2.2.2.2⟩

end Pipeline
